import Mathlib

/-!
Verification development for the TextExtractor repository's content-search
and relevance-ranking engine (the SearchService module, together with the
data-model interfaces declared in the types module).

Embedding conventions:
* JavaScript strings are modelled as Lean String (a list of characters);
  all inputs considered here are ASCII, and toLowerCase is modelled by the
  ASCII lowercasing jsToLower below.
* JavaScript numbers are modelled by the rationals; every constant in the
  source (0.5, 0.3, 0.05, 0.1, 0.2, the fixed field scores) is an exact
  decimal, so rational arithmetic mirrors the source arithmetic.  Division
  by zero is modelled by rational division (which yields 0).
* The relevance scorer is embedded twice.  calculateRelevanceScore is the
  total rational model used by the search pipeline; it counts non-overlapping
  literal occurrences and is faithful to the source exactly on the terms the
  tokenizer can produce (non-empty, word characters only), the only terms the
  matchers ever pass to it, because for such patterns the source regex
  matches literally, never throws, and the positional division never sees an
  empty text.  calculateRelevanceScoreJS additionally models JavaScript
  number semantics of the division: a division by zero produces a non-finite
  value (NaN here), which propagates to the returned score; the value none
  stands for such a non-finite result.  On terms outside the word-character
  alphabet neither model tracks the source (the regex may match differently
  or the RegExp constructor may throw), and no theorem quantifies over such
  terms.
* localeCompare is modelled after the default (root collation) behaviour of
  ECMAScript String.prototype.localeCompare restricted to ASCII: strings are
  compared case-insensitively first (whole-string primary pass), and primary
  ties are broken with lowercase letters ordered before uppercase ones.
* JavaScript truthiness tests on optional string fields (title, author,
  ocrText, summary) hold exactly when the field is present and non-empty;
  a present-but-empty keyword array is truthy, which the model reflects.
-/

namespace TextExtractor

/-- Match-type tag of a search result, from the SearchResult interface:
text, ocr, or metadata. -/
inductive MatchType where
  | text
  | ocr
  | metadata
deriving DecidableEq

/-- The SearchResult interface from the types module. -/
structure SearchResult where
  fileId : String
  fileName : String
  content : String
  relevanceScore : ℚ
  matchType : MatchType
  context : String
deriving DecidableEq

/-- The ExtractedImage interface (only the fields the search engine reads). -/
structure ExtractedImage where
  id : String := ""
  ocrText : Option String := none
deriving DecidableEq

/-- The ExtractedTable interface (only the fields the search engine reads). -/
structure ExtractedTable where
  id : String := ""
  headers : List String := []
  rows : List (List String) := []
  title : Option String := none
deriving DecidableEq

/-- The FileMetadata interface (only the fields the search engine reads). -/
structure FileMetadata where
  title : Option String := none
  author : Option String := none
  language : Option String := none
deriving DecidableEq

/-- The ExtractedContent interface (only the fields the search engine reads). -/
structure ExtractedContent where
  text : String := ""
  images : List ExtractedImage := []
  tables : List ExtractedTable := []
  metadata : FileMetadata := {}
  summary : Option String := none
  keywords : Option (List String) := none
deriving DecidableEq

/-- The ExtractedFile interface (only the fields the search engine reads). -/
structure ExtractedFile where
  id : String := ""
  name : String := ""
  extractedContent : ExtractedContent := {}
deriving DecidableEq

/-- The SortOption union type from the types module:
name, date, size, type, or relevance. -/
inductive SortOption where
  | name
  | date
  | size
  | type
  | relevance
deriving DecidableEq

/-- The SearchOptions interface, with the default values destructured at the
top of SearchService.search. -/
structure SearchOptions where
  includeText : Bool := true
  includeOCR : Bool := true
  includeMetadata : Bool := true
  sortBy : SortOption := .relevance
  maxResults : Nat := 50
  threshold : ℚ := 0.1
deriving DecidableEq

/-- ASCII model of JavaScript String.prototype.toLowerCase. -/
def jsToLower (s : String) : String :=
  String.mk (s.data.map Char.toLower)

/-- A character matched by the JavaScript regex class backslash-w,
namely ASCII letters, digits, and the underscore. -/
def jsWordChar (c : Char) : Bool :=
  c.isAlphanum || c == '_'

/-- Substring containment on character lists: does the needle occur
contiguously inside the haystack?  Model of String.prototype.includes. -/
def containsSub (hay needle : List Char) : Bool :=
  (List.range (hay.length + 1)).any (fun i => needle.isPrefixOf (hay.drop i))

/-- Model of String.prototype.includes on strings. -/
def strIncludes (hay needle : String) : Bool :=
  containsSub hay.data needle.data

/-- Model of String.prototype.indexOf with a start position: the least
index at or after start where the needle occurs, if any. -/
def idxFrom (hay needle : List Char) (start : Nat) : Option Nat :=
  (List.range (hay.length + 1)).find?
    (fun i => decide (start ≤ i) && needle.isPrefixOf (hay.drop i))

/-- Fueled model of the indexOf scanning loop in searchInText: collect the
match positions left to right, restarting each scan just past the previous
match.  The fuel (one more than the haystack length) is enough for every
non-empty needle, the only needles the source ever scans for. -/
def occAux (hay needle : List Char) : Nat → Nat → List Nat
  | 0, _ => []
  | fuel + 1, start =>
    match idxFrom hay needle start with
    | none => []
    | some i => i :: occAux hay needle fuel (i + needle.length)

/-- All left-to-right non-overlapping occurrence positions of the needle in
the haystack, as enumerated by the while loop of searchInText. -/
def occList (hay needle : List Char) : List Nat :=
  occAux hay needle (hay.length + 1) 0

/-- SearchService.preprocessQuery: lowercase, replace every character that is
neither a word character nor whitespace by a space, split on whitespace, and
keep only terms longer than two characters. -/
def preprocessQuery (query : String) : List String :=
  ((((jsToLower query).data.map
      (fun c => if jsWordChar c || c.isWhitespace then c else ' ')).splitOnP
    Char.isWhitespace).map (fun t => String.mk t)).filter
    (fun term => 2 < term.length)

/-- SearchService.extractContext: a 150-character window around the match,
clamped to the text bounds, with ellipses marking truncation. -/
def extractContext (text : String) (position : Nat) (matchLength : Nat) :
    String :=
  let contextLength : Nat := 150
  let start := position - contextLength / 2
  let stop := min text.length (position + matchLength + contextLength / 2)
  let context := String.mk ((text.data.drop start).take (stop - start))
  let context := if 0 < start then "..." ++ context else context
  if stop < text.length then context ++ "..." else context

/-- SearchService.calculateRelevanceScore: base 0.5, an exact-match bonus of
0.3 when the context contains the term, a frequency bonus of 0.05 per
occurrence capped at 0.2, a positional bonus of up to 0.1 for early first
occurrences, and a final clamp to 1.  Total rational model: faithful to the
source for every term the tokenizer can produce (non-empty, characters in
the word class only), where the source regex counts exactly the literal
non-overlapping occurrences and the positional division never divides by
zero; see calculateRelevanceScoreJS for the partial model that also tracks
the unguarded division. -/
def calculateRelevanceScore (term fullText context : String) : ℚ :=
  let score : ℚ := 0.5
  let score :=
    if containsSub (jsToLower context).data (jsToLower term).data then
      score + 0.3
    else score
  let termCount := (occList (jsToLower fullText).data (jsToLower term).data).length
  let score := score + min 0.2 ((termCount : ℚ) * 0.05)
  let score :=
    match idxFrom (jsToLower fullText).data (jsToLower term).data 0 with
    | some position =>
      let relativePosition : ℚ := (position : ℚ) / (fullText.length : ℚ)
      score + (1 - relativePosition) * 0.1
    | none => score
  min 1 score

/-- Division under JavaScript number semantics: dividing by zero yields a
non-finite value (NaN for 0/0, an infinity otherwise), modelled as none. -/
def jsDiv (a b : ℚ) : Option ℚ :=
  if b = 0 then none else some (a / b)

/-- SearchService.calculateRelevanceScore with the positional division
modelled partially, as JavaScript computes it: when the term occurs (indexOf
is not -1) but the text length is 0 — possible only for the empty term on
the empty text — the source computes 0/0 = NaN, NaN propagates through the
sum and Math.min, and the returned score is not a number in the unit
interval; that outcome is the value none here.  The frequency count is the
literal non-overlapping occurrence count, which agrees with the source regex
for every metacharacter-free pattern, the empty pattern included. -/
def calculateRelevanceScoreJS (term fullText context : String) : Option ℚ :=
  let score : ℚ := 0.5
  let score :=
    if containsSub (jsToLower context).data (jsToLower term).data then
      score + 0.3
    else score
  let termCount := (occList (jsToLower fullText).data (jsToLower term).data).length
  let score := score + min 0.2 ((termCount : ℚ) * 0.05)
  match idxFrom (jsToLower fullText).data (jsToLower term).data 0 with
  | some position =>
    match jsDiv (position : ℚ) (fullText.length : ℚ) with
    | some relativePosition => some (min 1 (score + (1 - relativePosition) * 0.1))
    | none => none
  | none => some (min 1 score)

/-- The key-set deduplication loop of SearchService.deduplicateResults, with
the set of already-seen keys made explicit. -/
def deduplicateAux (seen : List String) : List SearchResult → List SearchResult
  | [] => []
  | r :: rest =>
    let key := r.fileId ++ "-" ++ r.content
    if seen.contains key then deduplicateAux seen rest
    else r :: deduplicateAux (key :: seen) rest

/-- SearchService.deduplicateResults: keep the first result for each
(file id, content) key. -/
def deduplicateResults (results : List SearchResult) : List SearchResult :=
  deduplicateAux [] results

/-- SearchService.searchInText: scan the lowercased text for every
non-overlapping occurrence of every preprocessed query term, emit one result
per occurrence, and deduplicate. -/
def searchInText (query text fileId fileName : String) (matchType : MatchType) :
    List SearchResult :=
  let queryTerms := preprocessQuery query
  let textLower := jsToLower text
  let results := queryTerms.flatMap (fun term =>
    let termLower := jsToLower term
    (occList textLower.data termLower.data).map (fun index =>
      let context := extractContext text index termLower.length
      let relevanceScore := calculateRelevanceScore term text context
      { fileId := fileId, fileName := fileName, content := context,
        relevanceScore := relevanceScore, matchType := matchType,
        context := context }))
  deduplicateResults results

/-- SearchService.searchInMetadata: substring check of the raw lowercased
query against the title (fixed score 0.9) and author (fixed score 0.8). -/
def searchInMetadata (query : String) (file : ExtractedFile) :
    List SearchResult :=
  let metadata := file.extractedContent.metadata
  let queryLower := jsToLower query
  let titleResults :=
    match metadata.title with
    | some t =>
      if (t != "") && strIncludes (jsToLower t) queryLower then
        [{ fileId := file.id, fileName := file.name, content := t,
           relevanceScore := 0.9, matchType := .metadata,
           context := "Title: " ++ t }]
      else []
    | none => []
  let authorResults :=
    match metadata.author with
    | some a =>
      if (a != "") && strIncludes (jsToLower a) queryLower then
        [{ fileId := file.id, fileName := file.name, content := a,
           relevanceScore := 0.8, matchType := .metadata,
           context := "Author: " ++ a }]
      else []
    | none => []
  titleResults ++ authorResults

/-- SearchService.searchInTable: substring check of the raw lowercased query
against every header (fixed score 0.7) and every cell (fixed score 0.6), with
one-indexed row and column positions in the cell context. -/
def searchInTable (query : String) (table : ExtractedTable)
    (fileId fileName : String) : List SearchResult :=
  let queryLower := jsToLower query
  let headerResults := table.headers.flatMap (fun header =>
    if strIncludes (jsToLower header) queryLower then
      [{ fileId := fileId, fileName := fileName, content := header,
         relevanceScore := 0.7, matchType := .text,
         context := "Table header: " ++ header }]
    else [])
  let rowResults := table.rows.enum.flatMap (fun rowPair =>
    rowPair.2.enum.flatMap (fun cellPair =>
      if strIncludes (jsToLower cellPair.2) queryLower then
        [{ fileId := fileId, fileName := fileName, content := cellPair.2,
           relevanceScore := 0.6, matchType := .text,
           context := "Table cell (Row " ++ toString (rowPair.1 + 1) ++
             ", Col " ++ toString (cellPair.1 + 1) ++ "): " ++ cellPair.2 }]
      else []))
  headerResults ++ rowResults

/-- SearchService.searchInKeywords: substring check of the raw lowercased
query against every keyword, fixed score 0.8, match type text. -/
def searchInKeywords (query : String) (keywords : List String)
    (fileId fileName : String) : List SearchResult :=
  let queryLower := jsToLower query
  keywords.flatMap (fun keyword =>
    if strIncludes (jsToLower keyword) queryLower then
      [{ fileId := fileId, fileName := fileName, content := keyword,
         relevanceScore := 0.8, matchType := .text,
         context := "Keyword: " ++ keyword }]
    else [])

/-- Lexicographic comparison of lists of naturals. -/
def lexOrd : List Nat → List Nat → Ordering
  | [], [] => .eq
  | [], _ :: _ => .lt
  | _ :: _, [] => .gt
  | a :: as, b :: bs =>
    if a < b then .lt else if b < a then .gt else lexOrd as bs

/-- Primary collation key: the lowercased code point of every character. -/
def primaryKey (s : String) : List Nat :=
  s.data.map (fun c => c.toLower.toNat)

/-- Tertiary collation key: 1 for uppercase characters, 0 otherwise
(lowercase sorts before uppercase on primary ties). -/
def tertiaryKey (s : String) : List Nat :=
  s.data.map (fun c => if c.isUpper then 1 else 0)

/-- Model of ECMAScript String.prototype.localeCompare under the default
root collation, restricted to ASCII: compare the whole primary
(case-insensitive) keys first, then break ties with the tertiary
(lowercase-first) keys. -/
def localeCompare (a b : String) : Int :=
  match (lexOrd (primaryKey a) (primaryKey b)).then
      (lexOrd (tertiaryKey a) (tertiaryKey b)) with
  | .lt => -1
  | .eq => 0
  | .gt => 1

/-- SearchService.sortResults: stable sort descending by score for the
relevance key, stable sort by localeCompare on the file name for the name
key, and the identity for every other key. -/
def sortResults (results : List SearchResult) (sortBy : SortOption) :
    List SearchResult :=
  match sortBy with
  | .relevance =>
    results.mergeSort (fun a b => decide (b.relevanceScore ≤ a.relevanceScore))
  | .name =>
    results.mergeSort (fun a b => decide (localeCompare a.fileName b.fileName ≤ 0))
  | _ => results

/-- The per-file body of the main loop of SearchService.search, pushing each
matcher's results onto the accumulator in source order: text, OCR, metadata,
tables, summary, keywords. -/
def collectForFile (query : String) (opts : SearchOptions)
    (acc : List SearchResult) (file : ExtractedFile) : List SearchResult :=
  let acc :=
    if opts.includeText && (file.extractedContent.text != "") then
      acc ++ searchInText query file.extractedContent.text file.id file.name .text
    else acc
  let acc :=
    if opts.includeOCR then
      file.extractedContent.images.foldl (fun acc image =>
        match image.ocrText with
        | some ocr =>
          if ocr != "" then
            acc ++ searchInText query ocr file.id file.name .ocr
          else acc
        | none => acc) acc
    else acc
  let acc :=
    if opts.includeMetadata then acc ++ searchInMetadata query file else acc
  let acc := file.extractedContent.tables.foldl
    (fun acc table => acc ++ searchInTable query table file.id file.name) acc
  let acc :=
    match file.extractedContent.summary with
    | some s =>
      if s != "" then acc ++ searchInText query s file.id file.name .text
      else acc
    | none => acc
  match file.extractedContent.keywords with
  | some ks => acc ++ searchInKeywords query ks file.id file.name
  | none => acc

/-- The candidate-collection phase of SearchService.search: run the per-file
matcher loop over the whole collection, accumulating results in order. -/
def collectResults (query : String) (files : List ExtractedFile)
    (opts : SearchOptions) : List SearchResult :=
  files.foldl (collectForFile query opts) []

/-- SearchService.search: collect candidates, drop those below the relevance
threshold, sort by the requested key, and truncate to maxResults. -/
def search (query : String) (files : List ExtractedFile)
    (opts : SearchOptions) : List SearchResult :=
  let results := collectResults query files opts
  let filteredResults :=
    results.filter (fun r => decide (opts.threshold ≤ r.relevanceScore))
  let sortedResults := sortResults filteredResults opts.sortBy
  sortedResults.take opts.maxResults

/-- SearchService.calculateSemanticSimilarity: Jaccard index of the two sets
of preprocessed terms, 0 when the union is empty. -/
def calculateSemanticSimilarity (query text : String) : ℚ :=
  let queryWords := (preprocessQuery query).toFinset
  let textWords := (preprocessQuery text).toFinset
  let inter := queryWords ∩ textWords
  let union := queryWords ∪ textWords
  if 0 < union.card then (inter.card : ℚ) / (union.card : ℚ) else 0

/-- The contribution of the full-text matcher for one file, including its
option gate and the truthiness check on the text field. -/
def textMatcherPart (query : String) (opts : SearchOptions)
    (file : ExtractedFile) : List SearchResult :=
  if opts.includeText && (file.extractedContent.text != "") then
    searchInText query file.extractedContent.text file.id file.name .text
  else []

/-- The contribution of one image to the OCR matcher: scan its OCR text when
that text is present and non-empty. -/
def ocrImagePart (query fileId fileName : String) (image : ExtractedImage) :
    List SearchResult :=
  match image.ocrText with
  | some ocr =>
    if ocr != "" then searchInText query ocr fileId fileName .ocr else []
  | none => []

/-- The contribution of the per-image OCR matcher for one file, including its
option gate and the truthiness check on each ocrText field. -/
def ocrMatcherPart (query : String) (opts : SearchOptions)
    (file : ExtractedFile) : List SearchResult :=
  if opts.includeOCR then
    file.extractedContent.images.flatMap (ocrImagePart query file.id file.name)
  else []

/-- The contribution of the metadata matcher for one file, including its
option gate. -/
def metadataMatcherPart (query : String) (opts : SearchOptions)
    (file : ExtractedFile) : List SearchResult :=
  if opts.includeMetadata then searchInMetadata query file else []

/-- The contribution of the table matcher for one file; it has no option
gate in the source. -/
def tableMatcherPart (query : String) (file : ExtractedFile) :
    List SearchResult :=
  file.extractedContent.tables.flatMap
    (fun table => searchInTable query table file.id file.name)

/-- The contribution of the summary matcher for one file; it has no option
gate in the source, only the truthiness check on the summary field. -/
def summaryMatcherPart (query : String) (file : ExtractedFile) :
    List SearchResult :=
  match file.extractedContent.summary with
  | some s =>
    if s != "" then searchInText query s file.id file.name .text else []
  | none => []

/-- The contribution of the keyword matcher for one file; it has no option
gate in the source, only the truthiness check on the keywords field. -/
def keywordMatcherPart (query : String) (file : ExtractedFile) :
    List SearchResult :=
  match file.extractedContent.keywords with
  | some ks => searchInKeywords query ks file.id file.name
  | none => []

/-- The per-file candidate list in the order the specification lists the
matchers: text, OCR, summary, metadata, table, keyword.  Written from the
specification's words, for comparison with collectForFile, whose source
order is text, OCR, metadata, table, summary, keyword. -/
def collectForFileSpecListed (query : String) (opts : SearchOptions)
    (file : ExtractedFile) : List SearchResult :=
  textMatcherPart query opts file ++ ocrMatcherPart query opts file ++
    summaryMatcherPart query file ++ metadataMatcherPart query opts file ++
    tableMatcherPart query file ++ keywordMatcherPart query file

/-- The candidate-collection phase in the matcher order the specification
lists, concatenated across the document collection in order. -/
def collectResultsSpecListed (query : String) (files : List ExtractedFile)
    (opts : SearchOptions) : List SearchResult :=
  files.flatMap (collectForFileSpecListed query opts)

/-- The code-unit sequence of a string; case-sensitive lexicographic string
order is lexicographic order on these sequences. -/
def codeUnits (s : String) : List Nat :=
  s.data.map Char.toNat

/-- A document whose only content is a metadata title. -/
def titledDoc : ExtractedFile :=
  { id := "f1", name := "annual.pdf",
    extractedContent := { metadata := { title := some "Annual Report" } } }

/-- A document with plain text but no title, author, tables, or keywords. -/
def plainTextDoc : ExtractedFile :=
  { id := "f2", name := "notes.txt",
    extractedContent := { text := "hello world text content" } }

/-- The full text of the revenue scenario. -/
def revenueText : String :=
  "The quarterly revenue report shows revenue growth in Q1 2023."

/-- The document of the revenue scenario. -/
def revenueDoc : ExtractedFile :=
  { id := "f3", name := "report.pdf",
    extractedContent := { text := revenueText } }

/-- The single result the revenue scenario actually produces: the two
occurrences of the term share the whole text as context window (the text is
shorter than the window), so deduplication keeps only the first. -/
def revenueHit : SearchResult :=
  { fileId := "f3", fileName := "report.pdf", content := revenueText,
    relevanceScore := 298 / 305, matchType := .text, context := revenueText }

/-- A document matching the query qqq in both its title and its summary. -/
def mixedDoc : ExtractedFile :=
  { id := "f4", name := "mixed.pdf",
    extractedContent :=
      { metadata := { title := some "qqq report" },
        summary := some "qqq summary" } }

/-- The document of the table scenario. -/
def bobDoc : ExtractedFile :=
  { id := "f5", name := "table.pdf",
    extractedContent :=
      { tables := [{ id := "t1", headers := ["Name", "Amount"],
                     rows := [["Alice", "100"], ["Bob", "200"]] }] } }

/-- The single result of the table scenario. -/
def bobResult : SearchResult :=
  { fileId := "f5", fileName := "table.pdf", content := "Bob",
    relevanceScore := 0.6, matchType := .text,
    context := "Table cell (Row 2, Col 1): Bob" }

/-- A result whose file name is the lowercase string a. -/
def resLowerA : SearchResult :=
  { fileId := "x", fileName := "a", content := "c", relevanceScore := 0.5,
    matchType := .text, context := "k" }

/-- A result whose file name is the uppercase string B. -/
def resUpperB : SearchResult :=
  { fileId := "y", fileName := "B", content := "c", relevanceScore := 0.5,
    matchType := .text, context := "k" }

/-- A file is free of empty-query substring targets when it has no non-empty
title or author, no tables, and no keywords: exactly the fields whose
matchers test raw substring containment and therefore match the empty
query. -/
def noEmptyQueryTargets (f : ExtractedFile) : Prop :=
  (f.extractedContent.metadata.title = none ∨
    f.extractedContent.metadata.title = some "") ∧
  (f.extractedContent.metadata.author = none ∨
    f.extractedContent.metadata.author = some "") ∧
  f.extractedContent.tables = [] ∧
  (f.extractedContent.keywords = none ∨ f.extractedContent.keywords = some [])

instance : DecidablePred noEmptyQueryTargets := fun f => by
  unfold noEmptyQueryTargets
  infer_instance

theorem search_pipeline (q : String) (fs : List ExtractedFile)
    (o : SearchOptions) :
    search q fs o = (sortResults ((collectResults q fs o).filter
      (fun r => decide (o.threshold ≤ r.relevanceScore))) o.sortBy).take
      o.maxResults := rfl

theorem sortResults_nil (sb : SortOption) : sortResults [] sb = [] := by
  cases sb <;> simp [sortResults]

theorem sortResults_singleton (r : SearchResult) (sb : SortOption) :
    sortResults [r] sb = [r] := by
  cases sb <;> simp [sortResults]

theorem length_sortResults (rs : List SearchResult) (sb : SortOption) :
    (sortResults rs sb).length = rs.length := by
  cases sb <;> simp [sortResults]

theorem searchInText_empty_query (text fileId fileName : String)
    (mt : MatchType) : searchInText "" text fileId fileName mt = [] := rfl

theorem foldl_append_eq {α β : Type} (g : α → List β) :
    ∀ (l : List α) (acc : List β),
      l.foldl (fun a x => a ++ g x) acc = acc ++ l.flatMap g := by
  intro l
  induction l with
  | nil => intro acc; simp
  | cons x xs ih => intro acc; simp [ih, List.append_assoc]

theorem collectForFile_parts (q : String) (o : SearchOptions)
    (acc : List SearchResult) (f : ExtractedFile) :
    collectForFile q o acc f =
      acc ++ textMatcherPart q o f ++ ocrMatcherPart q o f ++
        metadataMatcherPart q o f ++ tableMatcherPart q f ++
        summaryMatcherPart q f ++ keywordMatcherPart q f := by
  have ocrFold : ∀ (imgs : List ExtractedImage) (a : List SearchResult),
      imgs.foldl (fun a image =>
        match image.ocrText with
        | some ocr =>
          if ocr != "" then a ++ searchInText q ocr f.id f.name .ocr else a
        | none => a) a = a ++ imgs.flatMap (ocrImagePart q f.id f.name) := by
    intro imgs
    induction imgs with
    | nil => intro a; simp
    | cons img rest ih =>
      intro a
      have hbody : (match img.ocrText with
          | some ocr =>
            if ocr != "" then a ++ searchInText q ocr f.id f.name .ocr else a
          | none => a) = a ++ ocrImagePart q f.id f.name img := by
        cases h : img.ocrText with
        | none => simp [ocrImagePart, h]
        | some ocr =>
          by_cases hne : (ocr != "") = true
          · simp [ocrImagePart, h, hne]
          · simp [ocrImagePart, h, hne]
      simp only [List.foldl_cons, hbody, ih, List.flatMap_cons,
        List.append_assoc]
  have tblFold : ∀ (tbls : List ExtractedTable) (a : List SearchResult),
      tbls.foldl (fun a table => a ++ searchInTable q table f.id f.name) a =
        a ++ tbls.flatMap (fun table => searchInTable q table f.id f.name) :=
    fun tbls a => foldl_append_eq _ tbls a
  simp only [collectForFile]
  by_cases hText : (o.includeText && (f.extractedContent.text != "")) = true <;>
    by_cases hOCR : o.includeOCR = true <;>
      by_cases hMeta : o.includeMetadata = true <;>
        simp only [hText, hOCR, hMeta, if_true, if_false, Bool.not_eq_true,
          ocrFold, tblFold, textMatcherPart, ocrMatcherPart,
          metadataMatcherPart, tableMatcherPart, summaryMatcherPart,
          keywordMatcherPart] <;>
      · cases hs : f.extractedContent.summary with
        | none =>
          cases hk : f.extractedContent.keywords with
          | none => simp [hText, hOCR, hMeta, hs, hk, List.append_assoc]
          | some ks => simp [hText, hOCR, hMeta, hs, hk, List.append_assoc]
        | some s =>
          cases hk : f.extractedContent.keywords with
          | none =>
            by_cases hne : (s != "") = true <;>
              simp [hText, hOCR, hMeta, hs, hk, hne, List.append_assoc]
          | some ks =>
            by_cases hne : (s != "") = true <;>
              simp [hText, hOCR, hMeta, hs, hk, hne, List.append_assoc]

theorem collectResults_parts (q : String) (files : List ExtractedFile)
    (o : SearchOptions) :
    collectResults q files o = files.flatMap (fun f =>
      textMatcherPart q o f ++ ocrMatcherPart q o f ++
        metadataMatcherPart q o f ++ tableMatcherPart q f ++
        summaryMatcherPart q f ++ keywordMatcherPart q f) := by
  have gen : ∀ (fs : List ExtractedFile) (acc : List SearchResult),
      fs.foldl (collectForFile q o) acc = acc ++ fs.flatMap (fun f =>
        textMatcherPart q o f ++ ocrMatcherPart q o f ++
          metadataMatcherPart q o f ++ tableMatcherPart q f ++
          summaryMatcherPart q f ++ keywordMatcherPart q f) := by
    intro fs
    induction fs with
    | nil => intro acc; simp
    | cons f rest ih =>
      intro acc
      simp only [List.foldl_cons, collectForFile_parts, ih,
        List.flatMap_cons, List.append_assoc]
  simpa using gen files []

theorem lexOrd_eq_iff : ∀ (x y : List Nat), lexOrd x y = .eq ↔ x = y := by
  intro x
  induction x with
  | nil => intro y; cases y <;> simp [lexOrd]
  | cons a as ih =>
    intro y
    cases y with
    | nil => simp [lexOrd]
    | cons b bs =>
      by_cases hab : a < b
      · simp [lexOrd, hab]
        omega
      · by_cases hba : b < a
        · simp [lexOrd, hab, hba]
          omega
        · have hEq : a = b := by omega
          simp [lexOrd, hab, hba, hEq, ih bs]

theorem lexOrd_swap : ∀ (x y : List Nat), lexOrd y x = (lexOrd x y).swap := by
  intro x
  induction x with
  | nil => intro y; cases y <;> simp [lexOrd, Ordering.swap]
  | cons a as ih =>
    intro y
    cases y with
    | nil => simp [lexOrd, Ordering.swap]
    | cons b bs =>
      by_cases hab : a < b
      · have hba : ¬ b < a := by omega
        simp [lexOrd, hab, hba, Ordering.swap]
      · by_cases hba : b < a
        · simp [lexOrd, hab, hba, Ordering.swap]
        · simp [lexOrd, hab, hba, ih bs]

theorem lexOrd_lt_trans : ∀ (x y z : List Nat),
    lexOrd x y = .lt → lexOrd y z = .lt → lexOrd x z = .lt := by
  intro x
  induction x with
  | nil =>
    intro y z hxy hyz
    cases y with
    | nil => exact hyz
    | cons b bs =>
      cases z with
      | nil => simp [lexOrd] at hyz
      | cons c cs => simp [lexOrd]
  | cons a as ih =>
    intro y z hxy hyz
    cases y with
    | nil => simp [lexOrd] at hxy
    | cons b bs =>
      cases z with
      | nil => simp [lexOrd] at hyz
      | cons c cs =>
        by_cases hab : a < b <;> by_cases hbc : b < c
        · have hac : a < c := by omega
          simp [lexOrd, hac]
        · by_cases hcb : c < b
          · simp [lexOrd, hbc, hcb] at hyz
          · have hbc' : b = c := by omega
            have hac : a < c := by omega
            simp [lexOrd, hac]
        · by_cases hba : b < a
          · simp [lexOrd, hab, hba] at hxy
          · have hab' : a = b := by omega
            have hac : a < c := by omega
            simp [lexOrd, hac]
        · by_cases hba : b < a
          · simp [lexOrd, hab, hba] at hxy
          · by_cases hcb : c < b
            · simp [lexOrd, hbc, hcb] at hyz
            · have hab' : a = b := by omega
              have hbc' : b = c := by omega
              have hac : ¬ a < c := by omega
              have hca : ¬ c < a := by omega
              simp [lexOrd, hab, hba] at hxy
              simp [lexOrd, hbc, hcb] at hyz
              simp [lexOrd, hac, hca]
              exact ih bs cs hxy hyz

theorem lexOrd_not_gt_trans {x y z : List Nat}
    (hxy : lexOrd x y ≠ .gt) (hyz : lexOrd y z ≠ .gt) :
    lexOrd x z ≠ .gt := by
  rcases h1 : lexOrd x y with _ | _ | _
  · rcases h2 : lexOrd y z with _ | _ | _
    · have := lexOrd_lt_trans x y z h1 h2
      simp [this]
    · have : y = z := (lexOrd_eq_iff y z).mp h2
      subst this
      simp [h1]
    · exact absurd h2 hyz
  · have : x = y := (lexOrd_eq_iff x y).mp h1
    subst this
    exact hyz
  · exact absurd h1 hxy

theorem char_isUpper_iff (c : Char) :
    c.isUpper = true ↔ (65 ≤ c.toNat ∧ c.toNat ≤ 90) := by
  simp only [Char.isUpper, Bool.and_eq_true, decide_eq_true_eq, ge_iff_le,
    UInt32.le_def, BitVec.le_def]
  have h65 : (65 : UInt32).toBitVec.toNat = 65 := by decide
  have h90 : (90 : UInt32).toBitVec.toNat = 90 := by decide
  rw [h65, h90]
  constructor
  · rintro ⟨h1, h2⟩; exact ⟨h1, h2⟩
  · rintro ⟨h1, h2⟩; exact ⟨h1, h2⟩

theorem char_ofNat_toNat {n : Nat} (h : Nat.isValidChar n) :
    (Char.ofNat n).toNat = n := by
  rw [Char.ofNat, dif_pos h]
  rfl

theorem char_toLower_not_upper (c : Char) :
    (Char.toLower c).isUpper = false := by
  have hdef : Char.toLower c =
      if c.toNat ≥ 65 ∧ c.toNat ≤ 90 then Char.ofNat (c.toNat + 32) else c :=
    rfl
  rw [hdef]
  by_cases h : c.toNat ≥ 65 ∧ c.toNat ≤ 90
  · rw [if_pos h]
    have hv : Nat.isValidChar (c.toNat + 32) := Or.inl (by omega)
    have ht := char_ofNat_toNat hv
    rw [← Bool.not_eq_true]
    intro hup
    have := (char_isUpper_iff _).mp hup
    rw [ht] at this
    omega
  · rw [if_neg h]
    rw [← Bool.not_eq_true]
    intro hup
    have := (char_isUpper_iff _).mp hup
    omega

theorem splitOnP_ne_nil {α : Type} (p : α → Bool) :
    ∀ (l : List α), List.splitOnP p l ≠ [] := by
  intro l
  induction l with
  | nil => simp [List.splitOnP_nil]
  | cons a as ih =>
    rw [List.splitOnP_cons]
    by_cases h : p a = true
    · simp [h]
    · simp only [h, if_false]
      rcases hs : List.splitOnP p as with _ | ⟨hd, tl⟩
      · exact absurd hs ih
      · simp [List.modifyHead]

theorem mem_splitOnP_mem {α : Type} (p : α → Bool) :
    ∀ (l t : List α) (c : α), t ∈ List.splitOnP p l → c ∈ t →
      c ∈ l ∧ p c = false := by
  intro l
  induction l with
  | nil =>
    intro t c ht hc
    rw [List.splitOnP_nil] at ht
    simp at ht
    subst ht
    simp at hc
  | cons a as ih =>
    intro t c ht hc
    rw [List.splitOnP_cons] at ht
    by_cases hpa : p a = true
    · rw [if_pos hpa] at ht
      rcases List.mem_cons.mp ht with h | h
      · subst h; simp at hc
      · have := ih t c h hc
        exact ⟨List.mem_cons_of_mem _ this.1, this.2⟩
    · rw [if_neg hpa] at ht
      rcases hs : List.splitOnP p as with _ | ⟨hd, tl⟩
      · exact absurd hs (splitOnP_ne_nil p as)
      · rw [hs] at ht
        simp only [List.modifyHead] at ht
        rcases List.mem_cons.mp ht with h | h
        · subst h
          rcases List.mem_cons.mp hc with h2 | h2
          · subst h2
            exact ⟨List.mem_cons_self _ _, Bool.eq_false_iff.mpr hpa⟩
          · have hmem : hd ∈ List.splitOnP p as := by
              rw [hs]; exact List.mem_cons_self _ _
            have := ih hd c hmem h2
            exact ⟨List.mem_cons_of_mem _ this.1, this.2⟩
        · have hmem : t ∈ List.splitOnP p as := by
            rw [hs]; exact List.mem_cons_of_mem _ h
          have := ih t c hmem hc
          exact ⟨List.mem_cons_of_mem _ this.1, this.2⟩

theorem jsToLower_data (s : String) :
    (jsToLower s).data = s.data.map Char.toLower := rfl

theorem jsToLower_data_length (s : String) :
    (jsToLower s).data.length = s.length := by
  rw [jsToLower_data, List.length_map]
  rfl

theorem idxFrom_le {hay needle : List Char} {start i : Nat}
    (h : idxFrom hay needle start = some i) : i ≤ hay.length := by
  unfold idxFrom at h
  have hm := List.mem_of_find?_eq_some h
  have := List.mem_range.mp hm
  omega

theorem idxFrom_pos {hay needle : List Char} {start i : Nat}
    (h : idxFrom hay needle start = some i) (hne : needle ≠ []) :
    0 < hay.length := by
  unfold idxFrom at h
  have hp := List.find?_some h
  rw [Bool.and_eq_true] at hp
  have hpre := hp.2
  rw [List.isPrefixOf_iff_prefix] at hpre
  have hlen := hpre.length_le
  have h1 : 1 ≤ needle.length := List.length_pos.mpr hne
  have hd : (hay.drop i).length = hay.length - i := List.length_drop i hay
  omega

theorem ocrImagePart_empty_query (fileId fileName : String)
    (image : ExtractedImage) : ocrImagePart "" fileId fileName image = [] := by
  rcases image with ⟨iid, octext⟩
  cases octext with
  | none => rfl
  | some ocr => simp [ocrImagePart, searchInText_empty_query]

theorem collectResults_threshold (q : String) (files : List ExtractedFile)
    (o : SearchOptions) (t : ℚ) :
    collectResults q files { o with threshold := t } =
      collectResults q files o := rfl

/-- The comparison underlying localeCompare, as an Ordering. -/
def localeOrd (a b : String) : Ordering :=
  (lexOrd (primaryKey a) (primaryKey b)).then
    (lexOrd (tertiaryKey a) (tertiaryKey b))

theorem localeCompare_eq_ord (a b : String) :
    localeCompare a b =
      match localeOrd a b with
      | .lt => -1
      | .eq => 0
      | .gt => 1 := rfl

theorem localeCompare_le_iff (a b : String) :
    localeCompare a b ≤ 0 ↔ localeOrd a b ≠ .gt := by
  rw [localeCompare_eq_ord]
  rcases localeOrd a b with _ | _ | _ <;> simp

theorem localeOrd_swap (a b : String) :
    localeOrd b a = (localeOrd a b).swap := by
  unfold localeOrd
  rw [lexOrd_swap (primaryKey a) (primaryKey b),
    lexOrd_swap (tertiaryKey a) (tertiaryKey b)]
  rcases lexOrd (primaryKey a) (primaryKey b) with _ | _ | _ <;>
    rcases lexOrd (tertiaryKey a) (tertiaryKey b) with _ | _ | _ <;>
      simp [Ordering.then, Ordering.swap]

theorem localeOrd_total (a b : String) :
    localeOrd a b ≠ .gt ∨ localeOrd b a ≠ .gt := by
  rw [localeOrd_swap a b]
  rcases localeOrd a b with _ | _ | _ <;> simp [Ordering.swap]

theorem localeOrd_trans {a b c : String}
    (hab : localeOrd a b ≠ .gt) (hbc : localeOrd b c ≠ .gt) :
    localeOrd a c ≠ .gt := by
  unfold localeOrd at *
  rcases h1 : lexOrd (primaryKey a) (primaryKey b) with _ | _ | _ <;>
    rw [h1] at hab
  · rcases h2 : lexOrd (primaryKey b) (primaryKey c) with _ | _ | _ <;>
      rw [h2] at hbc
    · have := lexOrd_lt_trans _ _ _ h1 h2
      simp [Ordering.then, this]
    · have heq : primaryKey b = primaryKey c :=
        (lexOrd_eq_iff _ _).mp h2
      rw [← heq, h1]
      simp [Ordering.then]
    · simp [Ordering.then] at hbc
  · have heq : primaryKey a = primaryKey b := (lexOrd_eq_iff _ _).mp h1
    rcases h2 : lexOrd (primaryKey b) (primaryKey c) with _ | _ | _ <;>
      rw [h2] at hbc
    · rw [heq, h2]
      simp [Ordering.then]
    · have heq2 : primaryKey b = primaryKey c := (lexOrd_eq_iff _ _).mp h2
      rw [heq, heq2, (lexOrd_eq_iff _ _).mpr rfl]
      simp [Ordering.then] at hab hbc ⊢
      exact lexOrd_not_gt_trans hab hbc
    · simp [Ordering.then] at hbc
  · simp [Ordering.then] at hab

/-- C1 counterexample: the empty-string query does not return an empty
result sequence on every corpus; a document with a metadata title produces a
title candidate, because the metadata matcher tests raw substring containment
and the empty string is contained in every title. -/
theorem c1_empty_query_counterexample : search "" [titledDoc] {} ≠ [] := by
  with_unfolding_all decide

/-- C1 (amended): the empty query yields no text, OCR, or summary candidates
(the tokenizer returns no terms), so search with the empty query returns the
empty sequence on every corpus whose documents carry no non-empty title or
author, no tables, and no keywords; title, author, table-cell, table-header,
and keyword fields, by contrast, all match the empty query by substring
containment. -/
theorem c1_empty_query_amended (files : List ExtractedFile)
    (o : SearchOptions) (h : ∀ f ∈ files, noEmptyQueryTargets f) :
    search "" files o = [] := by
  have hcol : collectResults "" files o = [] := by
    rw [collectResults_parts, List.flatMap_eq_nil_iff]
    intro f hf
    obtain ⟨ht, ha, htab, hk⟩ := h f hf
    have h1 : textMatcherPart "" o f = [] := by
      unfold textMatcherPart
      rw [searchInText_empty_query]
      exact ite_self []
    have h2 : ocrMatcherPart "" o f = [] := by
      unfold ocrMatcherPart
      have hfm : f.extractedContent.images.flatMap
          (ocrImagePart "" f.id f.name) = [] := by
        rw [List.flatMap_eq_nil_iff]
        intro img _
        exact ocrImagePart_empty_query _ _ img
      rw [hfm]
      exact ite_self []
    have h3 : metadataMatcherPart "" o f = [] := by
      unfold metadataMatcherPart
      have hsm : searchInMetadata "" f = [] := by
        unfold searchInMetadata
        rcases ht with h' | h' <;> rcases ha with h'' | h'' <;>
          simp [h', h'']
      rw [hsm]
      exact ite_self []
    have h4 : tableMatcherPart "" f = [] := by
      unfold tableMatcherPart
      rw [htab]
      rfl
    have h5 : summaryMatcherPart "" f = [] := by
      unfold summaryMatcherPart
      cases hsum : f.extractedContent.summary with
      | none => rfl
      | some s => simp [searchInText_empty_query]
    have h6 : keywordMatcherPart "" f = [] := by
      unfold keywordMatcherPart
      rcases hk with h' | h'
      · rw [h']
      · rw [h']
        rfl
    rw [h1, h2, h3, h4, h5, h6]
    rfl
  rw [search_pipeline, hcol]
  simp [sortResults_nil]

/-- C1 witness: a corpus holding one plain-text document with no title,
author, tables, or keywords satisfies the hypothesis, and searching it with
the empty query returns the empty sequence. -/
theorem c1_empty_query_amended_witness :
    (∀ f ∈ [plainTextDoc], noEmptyQueryTargets f) ∧
      search "" [plainTextDoc] {} = [] :=
  ⟨by with_unfolding_all decide,
   c1_empty_query_amended [plainTextDoc] {} (by with_unfolding_all decide)⟩

/-- C2 counterexample: on the quarterly-revenue scenario the search does not
return two or more text candidates; both occurrences of the term share the
whole text as context window (the text is shorter than the 150-character
window), so deduplication by (file id, content) collapses them to one. -/
theorem c2_revenue_counterexample :
    ¬ 2 ≤ (List.filter (fun r => r.matchType == MatchType.text)
      (search "revenue" [revenueDoc] {})).length := by
  with_unfolding_all decide

/-- C2 (amended): on the quarterly-revenue scenario the search returns
exactly one candidate; it has match type text and relevance score at least
0.9 (base 0.5, exact-match bonus 0.3, frequency bonus 0.1 for two
occurrences, plus the positional bonus). -/
theorem c2_revenue_amended :
    search "revenue" [revenueDoc] {} = [revenueHit] ∧
    revenueHit.matchType = MatchType.text ∧
    (0.9 : ℚ) ≤ revenueHit.relevanceScore := by
  refine ⟨by with_unfolding_all decide, rfl, by with_unfolding_all decide⟩

/-- C3 counterexample: on a document matching the query in both its title
and its summary, the pre-sort candidate list differs from the concatenation
in the order the specification lists the matchers (text, OCR, summary,
metadata, table, keyword): the source runs the summary matcher after the
metadata and table matchers. -/
theorem c3_matcher_order_counterexample :
    collectResults "qqq" [mixedDoc] {} ≠
      collectResultsSpecListed "qqq" [mixedDoc] {} := by
  with_unfolding_all decide

/-- C3 (amended): for every document the matchers run unconditionally in the
source order text, OCR, metadata, table, summary, keyword, and the pre-sort
candidate list is the concatenation of their outputs in that call order. -/
theorem c3_matcher_order_amended (q : String) (files : List ExtractedFile)
    (o : SearchOptions) :
    collectResults q files o = files.flatMap (fun f =>
      textMatcherPart q o f ++ ocrMatcherPart q o f ++
        metadataMatcherPart q o f ++ tableMatcherPart q f ++
        summaryMatcherPart q f ++ keywordMatcherPart q f) :=
  collectResults_parts q files o

/-- C7: searching the two-row table for Bob returns exactly one candidate,
with match type text, fixed score 0.6, and the one-indexed row/column
context string. -/
theorem c7_table_scenario : search "Bob" [bobDoc] {} = [bobResult] := by
  with_unfolding_all decide

/-- C10: the table, summary, and keyword matchers are not gated by any
search option: with includeText, includeOCR, and includeMetadata all false,
the collected candidates are exactly the table, summary, and keyword
contributions, and a table cell still produces a search result. -/
theorem c10_ungated_matchers (q : String) (files : List ExtractedFile)
    (sb : SortOption) (mr : Nat) (th : ℚ) :
    collectResults q files
        { includeText := false, includeOCR := false, includeMetadata := false,
          sortBy := sb, maxResults := mr, threshold := th } =
      files.flatMap (fun f =>
        tableMatcherPart q f ++ summaryMatcherPart q f ++
          keywordMatcherPart q f) ∧
    search "Bob" [bobDoc]
        { includeText := false, includeOCR := false,
          includeMetadata := false } = [bobResult] := by
  constructor
  · rw [collectResults_parts]
    refine congrArg _ (funext fun f => ?_)
    simp [textMatcherPart, ocrMatcherPart, metadataMatcherPart]
  · with_unfolding_all decide

theorem calcScore_eq (term fullText context : String) :
    calculateRelevanceScore term fullText context =
      min 1 (0.5 +
        (if containsSub (jsToLower context).data (jsToLower term).data
          then (0.3 : ℚ) else 0) +
        min 0.2 (((occList (jsToLower fullText).data
            (jsToLower term).data).length : ℚ) * 0.05) +
        (match idxFrom (jsToLower fullText).data (jsToLower term).data 0 with
         | some position =>
            (1 - (position : ℚ) / (fullText.length : ℚ)) * 0.1
         | none => 0)) := by
  simp only [calculateRelevanceScore]
  by_cases hc :
      containsSub (jsToLower context).data (jsToLower term).data = true
  · rw [if_pos hc, if_pos hc]
    cases hidx : idxFrom (jsToLower fullText).data (jsToLower term).data 0 with
    | none => congr 1; try ring
    | some p => congr 1; try ring
  · rw [if_neg hc, if_neg hc]
    cases hidx : idxFrom (jsToLower fullText).data (jsToLower term).data 0 with
    | none => congr 1; try ring
    | some p => congr 1; try ring

theorem calcScore_nonneg (term fullText context : String) :
    0 ≤ calculateRelevanceScore term fullText context := by
  rw [calcScore_eq]
  refine le_min (by norm_num) ?_
  have hexact : (0 : ℚ) ≤
      (if containsSub (jsToLower context).data (jsToLower term).data
        then (0.3 : ℚ) else 0) := by
    split <;> norm_num
  have hfreq : (0 : ℚ) ≤ min 0.2 (((occList (jsToLower fullText).data
      (jsToLower term).data).length : ℚ) * 0.05) :=
    le_min (by norm_num) (by positivity)
  have hpos : (0 : ℚ) ≤
      (match idxFrom (jsToLower fullText).data (jsToLower term).data 0 with
       | some position =>
          (1 - (position : ℚ) / (fullText.length : ℚ)) * 0.1
       | none => 0) := by
    rcases hidx : idxFrom (jsToLower fullText).data (jsToLower term).data 0
        with _ | p
    · simp
    · simp only []
      refine mul_nonneg ?_ (by norm_num)
      rw [sub_nonneg]
      by_cases hlen : fullText.length = 0
      · rw [hlen]
        simp
      · have hp : p ≤ fullText.length := by
          have hle := idxFrom_le hidx
          rw [jsToLower_data_length] at hle
          exact hle
        have hlen' : (0 : ℚ) < (fullText.length : ℚ) := by
          exact_mod_cast Nat.pos_of_ne_zero hlen
        rw [div_le_one hlen']
        exact_mod_cast hp
  have hbase : (0 : ℚ) ≤ 0.5 := by norm_num
  exact add_nonneg (add_nonneg (add_nonneg hbase hexact) hfreq) hpos

theorem calcScore_le_one (term fullText context : String) :
    calculateRelevanceScore term fullText context ≤ 1 := by
  rw [calcScore_eq]
  exact min_le_left _ _

/-- C6 counterexample: the claimed formula and bounds do not hold for every
term.  For the empty term on the empty text the source finds the empty
pattern at index 0 (indexOf is not -1), so the positional bonus divides
0 by the text length 0; under JavaScript number semantics that is NaN, NaN
propagates through the sum and the clamp, and the returned score is not a
number in the interval from 0 to 1. -/
theorem c6_relevance_score_counterexample :
    calculateRelevanceScoreJS "" "" "" = none := by
  with_unfolding_all decide

/-- C6 (amended): for every term the tokenizer can produce — non-empty and
consisting only of lowercase letters, digits, and underscores, which covers
every term the matchers pass to the scorer — the partial JavaScript-number
model returns a genuine number equal to the total rational model, and that
score equals the clamp to 1 of base 0.5 plus the exact-match bonus of 0.3,
the frequency bonus of 0.05 per occurrence capped at 0.2, and the positional
bonus scaling 0.1 by one minus the relative first-occurrence position,
applied in that order; the result always lies in the interval from 0 to 1.
Outside this domain the source's regex-based count and unguarded division
diverge from the formula. -/
theorem c6_relevance_score_amended (term fullText context : String)
    (h : term.data ≠ [] ∧
      term.data.all (fun c => c.isLower || c.isDigit || c == '_') = true) :
    calculateRelevanceScoreJS term fullText context =
      some (calculateRelevanceScore term fullText context) ∧
    calculateRelevanceScore term fullText context =
      min 1 (0.5 +
        (if containsSub (jsToLower context).data (jsToLower term).data
          then (0.3 : ℚ) else 0) +
        min 0.2 (((occList (jsToLower fullText).data
            (jsToLower term).data).length : ℚ) * 0.05) +
        (match idxFrom (jsToLower fullText).data (jsToLower term).data 0 with
         | some position =>
            (1 - (position : ℚ) / (fullText.length : ℚ)) * 0.1
         | none => 0)) ∧
    0 ≤ calculateRelevanceScore term fullText context ∧
    calculateRelevanceScore term fullText context ≤ 1 := by
  refine ⟨?_, calcScore_eq term fullText context,
    calcScore_nonneg term fullText context,
    calcScore_le_one term fullText context⟩
  simp only [calculateRelevanceScoreJS, calculateRelevanceScore]
  cases hidx : idxFrom (jsToLower fullText).data (jsToLower term).data 0 with
  | none => rfl
  | some p =>
    have hne : (jsToLower term).data ≠ [] := by
      intro hnil
      have hl := congrArg List.length hnil
      rw [jsToLower_data_length] at hl
      have : term.data.length = 0 := hl
      exact h.1 (List.length_eq_zero.mp this)
    have hpos : 0 < fullText.length := by
      have hp := idxFrom_pos hidx hne
      rwa [jsToLower_data_length] at hp
    have hcast : (fullText.length : ℚ) ≠ 0 := by
      exact_mod_cast hpos.ne'
    simp [jsDiv, hcast]

/-- C6 witness: the term abc is non-empty and consists only of word
characters; on the text zabc the partial JavaScript-number model returns the
same genuine number as the total rational model, and the score is
non-negative. -/
theorem c6_relevance_score_amended_witness :
    calculateRelevanceScoreJS "abc" "zabc" "abc" =
      some (calculateRelevanceScore "abc" "zabc" "abc") ∧
    0 ≤ calculateRelevanceScore "abc" "zabc" "abc" :=
  ⟨(c6_relevance_score_amended "abc" "zabc" "abc"
      (by with_unfolding_all decide)).1,
   (c6_relevance_score_amended "abc" "zabc" "abc"
      (by with_unfolding_all decide)).2.2.1⟩

/-- C4 counterexample: with two results named a and B, sorting by name
orders them a then B (the locale comparison is case-insensitive at its
primary level), which is not non-decreasing in case-sensitive lexicographic
code-unit order, since the code units of B precede those of a. -/
theorem c4_sort_name_counterexample :
    ¬ List.Pairwise (fun a b : SearchResult =>
      lexOrd (codeUnits a.fileName) (codeUnits b.fileName) ≠ Ordering.gt)
      (sortResults [resLowerA, resUpperB] SortOption.name) := by
  with_unfolding_all decide

/-- C4 (amended): sorting with key relevance yields non-increasing scores;
sorting with key name yields file names non-decreasing under the locale
comparison (case-insensitive primary pass, lowercase before uppercase on
ties) rather than case-sensitive lexicographic order; the keys date, size,
and type leave the original order unchanged. -/
theorem c4_sort_order_amended (results : List SearchResult) :
    List.Pairwise (fun a b : SearchResult =>
      b.relevanceScore ≤ a.relevanceScore)
      (sortResults results .relevance) ∧
    List.Pairwise (fun a b : SearchResult =>
      localeCompare a.fileName b.fileName ≤ 0)
      (sortResults results .name) ∧
    sortResults results .date = results ∧
    sortResults results .size = results ∧
    sortResults results .type = results := by
  refine ⟨?_, ?_, rfl, rfl, rfl⟩
  · have h := @List.sorted_mergeSort SearchResult
      (fun a b => decide (b.relevanceScore ≤ a.relevanceScore))
      (fun a b c hab hbc => by
        simp only [decide_eq_true_eq] at hab hbc ⊢
        exact le_trans hbc hab)
      (fun a b => by
        simp only [Bool.or_eq_true, decide_eq_true_eq]
        exact le_total b.relevanceScore a.relevanceScore)
      results
    exact h.imp (fun hab => of_decide_eq_true hab)
  · have h := @List.sorted_mergeSort SearchResult
      (fun a b => decide (localeCompare a.fileName b.fileName ≤ 0))
      (fun a b c hab hbc => by
        simp only [decide_eq_true_eq] at hab hbc ⊢
        rw [localeCompare_le_iff] at hab hbc ⊢
        exact localeOrd_trans hab hbc)
      (fun a b => by
        simp only [Bool.or_eq_true, decide_eq_true_eq]
        rw [localeCompare_le_iff, localeCompare_le_iff]
        exact localeOrd_total _ _)
      results
    exact h.imp (fun hab => of_decide_eq_true hab)

/-- C5 counterexample: the tokenizer keeps underscores, which the JavaScript
word-character class includes; the query a_b_c is returned as the single
term a_b_c, whose characters are not all in the class of lowercase letters
and digits. -/
theorem c5_preprocess_counterexample :
    preprocessQuery "a_b_c" = ["a_b_c"] ∧
    ¬ ("a_b_c".data.all (fun c => c.isLower || c.isDigit)) = true := by
  refine ⟨by with_unfolding_all decide, by with_unfolding_all decide⟩

/-- C5 (amended): every term the tokenizer returns is longer than two
characters and consists only of lowercase letters, digits, and underscores
(the replacement step keeps the whole word-character class, underscore
included), and the empty input yields the empty sequence. -/
theorem c5_preprocess_amended (query : String) :
    (preprocessQuery query).all (fun t => decide (2 < t.length) &&
      t.data.all (fun c => c.isLower || c.isDigit || c == '_')) = true ∧
    preprocessQuery "" = [] := by
  constructor
  · rw [List.all_eq_true]
    intro t ht
    unfold preprocessQuery at ht
    obtain ⟨hmem, hlen⟩ := List.mem_filter.mp ht
    obtain ⟨chunk, hchunk, hmk⟩ := List.mem_map.mp hmem
    rw [Bool.and_eq_true]
    refine ⟨hlen, ?_⟩
    rw [List.all_eq_true]
    intro c hc
    have hc' : c ∈ chunk := by
      rw [← hmk] at hc
      exact hc
    obtain ⟨hinl, hnw⟩ := mem_splitOnP_mem _ _ _ _ hchunk hc'
    obtain ⟨d, hd, hrepl⟩ := List.mem_map.mp hinl
    by_cases hcase : (jsWordChar d || d.isWhitespace) = true
    · rw [if_pos hcase] at hrepl
      subst hrepl
      rw [jsToLower_data] at hd
      obtain ⟨e, he, hlow⟩ := List.mem_map.mp hd
      have hup : d.isUpper = false := by
        rw [← hlow]
        exact char_toLower_not_upper e
      have hw : jsWordChar d = true := by
        have hcases : jsWordChar d = true ∨ d.isWhitespace = true := by
          simpa using hcase
        rcases hcases with h | h
        · exact h
        · rw [h] at hnw
          exact absurd hnw (by simp)
      simp only [jsWordChar, Char.isAlphanum, Char.isAlpha, hup,
        Bool.false_or, Bool.or_eq_true] at hw
      simp only [Bool.or_eq_true]
      tauto
    · rw [if_neg hcase] at hrepl
      subst hrepl
      exact absurd hnw (by simp [Char.isWhitespace])
  · rfl

/-- C8: the similarity estimator returns the Jaccard index of the two sets
of normalized terms, returns 0 when the union is empty, and its result
always lies in the interval from 0 to 1. -/
theorem c8_semantic_similarity (q t : String) :
    0 ≤ calculateSemanticSimilarity q t ∧
    calculateSemanticSimilarity q t ≤ 1 ∧
    calculateSemanticSimilarity q t =
      (if 0 < ((preprocessQuery q).toFinset ∪
          (preprocessQuery t).toFinset).card then
        (((preprocessQuery q).toFinset ∩
            (preprocessQuery t).toFinset).card : ℚ) /
          (((preprocessQuery q).toFinset ∪
              (preprocessQuery t).toFinset).card : ℚ)
      else 0) ∧
    ((preprocessQuery q).toFinset ∪ (preprocessQuery t).toFinset = ∅ →
      calculateSemanticSimilarity q t = 0) := by
  have heq : calculateSemanticSimilarity q t =
      (if 0 < ((preprocessQuery q).toFinset ∪
          (preprocessQuery t).toFinset).card then
        (((preprocessQuery q).toFinset ∩
            (preprocessQuery t).toFinset).card : ℚ) /
          (((preprocessQuery q).toFinset ∪
              (preprocessQuery t).toFinset).card : ℚ)
      else 0) := rfl
  refine ⟨?_, ?_, heq, ?_⟩
  · rw [heq]
    split
    · positivity
    · exact le_refl 0
  · rw [heq]
    split
    case isTrue hpos =>
      rw [div_le_one (by exact_mod_cast hpos)]
      have hsub : (preprocessQuery q).toFinset ∩ (preprocessQuery t).toFinset ⊆
          (preprocessQuery q).toFinset ∪ (preprocessQuery t).toFinset :=
        le_trans Finset.inter_subset_left Finset.subset_union_left
      exact_mod_cast Finset.card_le_card hsub
    case isFalse hneg => norm_num
  · intro hu
    rw [heq, hu]
    simp

/-- C8 witness: with both inputs empty the term sets are empty, the union is
empty, and the similarity is 0. -/
theorem c8_semantic_similarity_witness :
    calculateSemanticSimilarity "" "" = 0 :=
  (c8_semantic_similarity "" "").2.2.2 (by with_unfolding_all decide)

/-- C9: raising the threshold never increases the result count for fixed
query, corpus, and other options, and a collected candidate survives the
threshold filter exactly when its score is not strictly below the
threshold. -/
theorem c9_threshold_monotone (q : String) (files : List ExtractedFile)
    (o : SearchOptions) (t1 t2 : ℚ) (h : t1 ≤ t2) :
    (search q files { o with threshold := t2 }).length ≤
      (search q files { o with threshold := t1 }).length ∧
    ∀ r : SearchResult,
      r ∈ (collectResults q files o).filter
          (fun x => decide (o.threshold ≤ x.relevanceScore)) ↔
        (r ∈ collectResults q files o ∧
          ¬ (r.relevanceScore < o.threshold)) := by
  constructor
  · rw [search_pipeline, search_pipeline, List.length_take, List.length_take,
      length_sortResults, length_sortResults]
    have hcol : collectResults q files { o with threshold := t2 } =
        collectResults q files { o with threshold := t1 } :=
      (collectResults_threshold q files o t2).trans
        (collectResults_threshold q files o t1).symm
    rw [hcol]
    refine min_le_min (le_refl _) ?_
    rw [← List.countP_eq_length_filter, ← List.countP_eq_length_filter]
    refine List.countP_mono_left ?_
    intro r _ hr
    simp only [decide_eq_true_eq] at hr ⊢
    exact le_trans h hr
  · intro r
    rw [List.mem_filter]
    simp [not_lt]

/-- C9 witness: on the table corpus, searching with threshold 0.7 returns no
more results than searching with threshold 0.5. -/
theorem c9_threshold_monotone_witness :
    (search "Bob" [bobDoc] { ({} : SearchOptions) with
        threshold := (0.7 : ℚ) }).length ≤
      (search "Bob" [bobDoc] { ({} : SearchOptions) with
        threshold := (0.5 : ℚ) }).length :=
  (c9_threshold_monotone "Bob" [bobDoc] {} 0.5 0.7
    (by with_unfolding_all decide)).1

end TextExtractor
